import Mathlib

/-!
Shallow embedding of `src/Utils/storage_vae.py` (class `RolloutStorageVAE`).

Tensors indexed `[time, actor, dim]` are modelled as functions `Nat → Nat → Int`
(the trailing feature dimension carries no logic and is collapsed to a single
scalar cell); per-actor vectors are `Nat → Int` / `Nat → Nat`.  The numpy
uniform draws consumed by `insert` are supplied as an explicit stream
`us : Nat → Rat`, consumed in the order the source calls `np.random.uniform`;
the index stream consumed by `get_batch` is `Nat → Nat` feeding a model of
`np.random.choice`.  All state mutation becomes explicit state passing.
-/

namespace RolloutStorageVAE

/-- Construction-time configuration of `RolloutStorageVAE.__init__`
(immutable after construction). -/
structure Config where
  num_processes : Nat
  max_traj_len : Nat
  max_buffer_size : Nat
  vae_buffer_add_thresh : Rat
  save_intrinsic_reward : Bool
  /-- whether `task_dim is not None`, i.e. the task tensors exist. -/
  has_task : Bool

/-- The permanent ring buffer for completed rollouts: fields
`insert_idx`, `buffer_len`, `prev_state`, ..., `trajectory_lens` of the
source class (lines 22-46). -/
structure RingBuf where
  insert_idx : Nat
  buffer_len : Nat
  prev_state : Nat → Nat → Int
  next_state : Nat → Nat → Int
  actions : Nat → Nat → Int
  rewards : Nat → Nat → Int
  masks : Nat → Nat → Int
  bad_masks : Nat → Nat → Int
  done_task : Nat → Nat → Int
  done_episode : Nat → Nat → Int
  intrinsic_rewards : Nat → Nat → Int
  tasks : Nat → Int
  trajectory_lens : Nat → Nat

/-- The per-actor running buffer: fields `curr_timestep`,
`running_prev_state`, ..., `running_tasks` of the source class
(lines 49-64); the `running_` name part is dropped. -/
structure Running where
  curr_timestep : Nat → Nat
  prev_state : Nat → Nat → Int
  next_state : Nat → Nat → Int
  rewards : Nat → Nat → Int
  mask : Nat → Nat → Int
  bad_masks : Nat → Nat → Int
  intrinsic_rewards : Nat → Nat → Int
  actions : Nat → Nat → Int
  done_task : Nat → Nat → Int
  done_episode : Nat → Nat → Int
  tasks : Nat → Int

/-- Whole storage object. -/
structure Storage where
  cfg : Config
  ring : RingBuf
  run : Running

/-- Arguments of one `insert` call: one entry per actor. -/
structure StepArgs where
  prev_state : Nat → Int
  actions : Nat → Int
  next_state : Nat → Int
  rewards : Nat → Int
  done : Nat → Bool
  task : Option (Nat → Int)
  masks : Nat → Int
  bad_masks : Nat → Int
  intrinsic_rewards : Nat → Int
  done_task : Nat → Int
  done_episode : Nat → Int

/-- Zero-initialised ring buffer (construction, lines 31-46). -/
def initRing : RingBuf :=
  { insert_idx := 0, buffer_len := 0
    prev_state := fun _ _ => 0, next_state := fun _ _ => 0
    actions := fun _ _ => 0, rewards := fun _ _ => 0
    masks := fun _ _ => 0, bad_masks := fun _ _ => 0
    done_task := fun _ _ => 0, done_episode := fun _ _ => 0
    intrinsic_rewards := fun _ _ => 0
    tasks := fun _ => 0, trajectory_lens := fun _ => 0 }

/-- Zero-initialised running buffer (construction, lines 49-64). -/
def initRunning : Running :=
  { curr_timestep := fun _ => 0
    prev_state := fun _ _ => 0, next_state := fun _ _ => 0
    rewards := fun _ _ => 0, mask := fun _ _ => 0
    bad_masks := fun _ _ => 0, intrinsic_rewards := fun _ _ => 0
    actions := fun _ _ => 0, done_task := fun _ _ => 0
    done_episode := fun _ _ => 0, tasks := fun _ => 0 }

/-- Freshly constructed storage. -/
def initStorage (cfg : Config) : Storage :=
  { cfg := cfg, ring := initRing, run := initRunning }

/-- Row assignment `field[t0] = values` restricted to the `N` actor columns
the tensor actually has. -/
def writeRow (f : Nat → Nat → Int) (t0 N : Nat) (v : Nat → Int) : Nat → Nat → Int :=
  fun t j => if t = t0 ∧ j < N then v j else f t j

/-- Fast vectorized insert at the shared timestep cursor, source lines 81-93:
one row write per field at `curr_timestep[0]`, `running_tasks = task`
whenever a task is supplied, then `curr_timestep += 1` for every actor. -/
def fastInsertRun (cfg : Config) (run : Running) (a : StepArgs) : Running :=
  let t0 := run.curr_timestep 0
  let N := cfg.num_processes
  { curr_timestep := fun j => if j < N then run.curr_timestep j + 1 else run.curr_timestep j
    prev_state := writeRow run.prev_state t0 N a.prev_state
    next_state := writeRow run.next_state t0 N a.next_state
    rewards := writeRow run.rewards t0 N a.rewards
    mask := writeRow run.mask t0 N a.masks
    bad_masks := writeRow run.bad_masks t0 N a.bad_masks
    intrinsic_rewards :=
      if cfg.save_intrinsic_reward then
        writeRow run.intrinsic_rewards t0 N a.intrinsic_rewards
      else run.intrinsic_rewards
    actions := writeRow run.actions t0 N a.actions
    done_task := writeRow run.done_task t0 N a.done_task
    done_episode := writeRow run.done_episode t0 N a.done_episode
    tasks :=
      match a.task with
      | some tv => fun j => if j < N then tv j else run.tasks j
      | none => run.tasks }

/-- Per-actor slow insert, source lines 151-164.  Two source quirks are kept
verbatim: line 160 assigns `done_task[i]` into `running_done_episode`, and
the guard `self.running_tasks[i] is None` on line 162 is never true for a
tensor row, so the task is never written on this path. -/
def slowInsertActor (cfg : Config) (run : Running) (a : StepArgs) (i : Nat) : Running :=
  let t0 := run.curr_timestep i
  { curr_timestep := fun j => if j = i then run.curr_timestep j + 1 else run.curr_timestep j
    prev_state := fun t j => if t = t0 ∧ j = i then a.prev_state i else run.prev_state t j
    next_state := fun t j => if t = t0 ∧ j = i then a.next_state i else run.next_state t j
    rewards := fun t j => if t = t0 ∧ j = i then a.rewards i else run.rewards t j
    mask := fun t j => if t = t0 ∧ j = i then a.masks i else run.mask t j
    bad_masks := fun t j => if t = t0 ∧ j = i then a.bad_masks i else run.bad_masks t j
    intrinsic_rewards :=
      if cfg.save_intrinsic_reward then
        fun t j => if t = t0 ∧ j = i then a.intrinsic_rewards i else run.intrinsic_rewards t j
      else run.intrinsic_rewards
    actions := fun t j => if t = t0 ∧ j = i then a.actions i else run.actions t j
    done_task := fun t j => if t = t0 ∧ j = i then a.done_task i else run.done_task t j
    done_episode := fun t j => if t = t0 ∧ j = i then a.done_task i else run.done_episode t j
    tasks := run.tasks }

/-- The slow path run for every actor in order, as in the loop of
source lines 148-164 when nothing was inserted yet. -/
def slowInsertAll (cfg : Config) (run : Running) (a : StepArgs) : Running :=
  (List.range cfg.num_processes).foldl (fun r i => slowInsertActor cfg r a i) run

/-- Batched write of the whole running buffer into the ring buffer,
source lines 103-127 (the body of the passed probability gate):
wrap handling for a block of `num_processes` trajectories, column-block
copies of every field, `trajectory_lens` from the cursors, cursor advance. -/
def batchedFlushRing (cfg : Config) (r : RingBuf) (run : Running) : RingBuf :=
  let N := cfg.num_processes
  let C := cfg.max_buffer_size
  let blen := if r.insert_idx + N > C then r.insert_idx else max r.buffer_len r.insert_idx
  let idx0 := if r.insert_idx + N > C then 0 else r.insert_idx
  let inBlk : Nat → Prop := fun j => idx0 ≤ j ∧ j < idx0 + N
  { insert_idx := idx0 + N
    buffer_len := blen
    prev_state := fun t j => if inBlk j then run.prev_state t (j - idx0) else r.prev_state t j
    next_state := fun t j => if inBlk j then run.next_state t (j - idx0) else r.next_state t j
    actions := fun t j => if inBlk j then run.actions t (j - idx0) else r.actions t j
    done_task := fun t j => if inBlk j then run.done_task t (j - idx0) else r.done_task t j
    done_episode := fun t j => if inBlk j then run.done_episode t (j - idx0) else r.done_episode t j
    rewards := fun t j => if inBlk j then run.rewards t (j - idx0) else r.rewards t j
    masks := fun t j => if inBlk j then run.mask t (j - idx0) else r.masks t j
    bad_masks := fun t j => if inBlk j then run.bad_masks t (j - idx0) else r.bad_masks t j
    intrinsic_rewards :=
      if cfg.save_intrinsic_reward then
        fun t j => if inBlk j then run.intrinsic_rewards t (j - idx0) else r.intrinsic_rewards t j
      else r.intrinsic_rewards
    tasks :=
      if cfg.has_task then
        fun j => if inBlk j then run.tasks (j - idx0) else r.tasks j
      else r.tasks
    trajectory_lens := fun j => if inBlk j then run.curr_timestep (j - idx0) else r.trajectory_lens j }

/-- Singular write of actor `i`'s running column into the ring buffer,
source lines 174-197 (the body of the passed probability gate). -/
def singularFlushRing (cfg : Config) (r : RingBuf) (run : Running) (i : Nat) : RingBuf :=
  let C := cfg.max_buffer_size
  let blen := if r.insert_idx + 1 > C then r.insert_idx else max r.buffer_len r.insert_idx
  let idx0 := if r.insert_idx + 1 > C then 0 else r.insert_idx
  { insert_idx := idx0 + 1
    buffer_len := blen
    prev_state := fun t j => if j = idx0 then run.prev_state t i else r.prev_state t j
    next_state := fun t j => if j = idx0 then run.next_state t i else r.next_state t j
    actions := fun t j => if j = idx0 then run.actions t i else r.actions t j
    done_task := fun t j => if j = idx0 then run.done_task t i else r.done_task t j
    done_episode := fun t j => if j = idx0 then run.done_episode t i else r.done_episode t j
    rewards := fun t j => if j = idx0 then run.rewards t i else r.rewards t j
    masks := fun t j => if j = idx0 then run.mask t i else r.masks t j
    bad_masks := fun t j => if j = idx0 then run.bad_masks t i else r.bad_masks t j
    intrinsic_rewards :=
      if cfg.save_intrinsic_reward then
        fun t j => if j = idx0 then run.intrinsic_rewards t i else r.intrinsic_rewards t j
      else r.intrinsic_rewards
    tasks :=
      if cfg.has_task then
        fun j => if j = idx0 then run.tasks i else r.tasks j
      else r.tasks
    trajectory_lens := fun j => if j = idx0 then run.curr_timestep i else r.trajectory_lens j }

/-- Zeroing of the whole running buffer, source lines 130-142. -/
def zeroRunning (cfg : Config) (run : Running) : Running :=
  { curr_timestep := fun _ => 0
    prev_state := fun _ _ => 0, next_state := fun _ _ => 0
    rewards := fun _ _ => 0, mask := fun _ _ => 0
    bad_masks := fun _ _ => 0
    intrinsic_rewards :=
      if cfg.save_intrinsic_reward then fun _ _ => 0 else run.intrinsic_rewards
    actions := fun _ _ => 0, done_task := fun _ _ => 0
    done_episode := fun _ _ => 0
    tasks := if cfg.has_task then fun _ => 0 else run.tasks }

/-- Zeroing of actor `i`'s running column, source lines 200-212. -/
def resetActor (cfg : Config) (run : Running) (i : Nat) : Running :=
  { curr_timestep := fun j => if j = i then 0 else run.curr_timestep j
    prev_state := fun t j => if j = i then 0 else run.prev_state t j
    next_state := fun t j => if j = i then 0 else run.next_state t j
    rewards := fun t j => if j = i then 0 else run.rewards t j
    mask := fun t j => if j = i then 0 else run.mask t j
    bad_masks := fun t j => if j = i then 0 else run.bad_masks t j
    intrinsic_rewards :=
      if cfg.save_intrinsic_reward then
        fun t j => if j = i then 0 else run.intrinsic_rewards t j
      else run.intrinsic_rewards
    actions := fun t j => if j = i then 0 else run.actions t j
    done_task := fun t j => if j = i then 0 else run.done_task t j
    done_episode := fun t j => if j = i then 0 else run.done_episode t j
    tasks := if cfg.has_task then (fun j => if j = i then 0 else run.tasks j) else run.tasks }

/-- The probability gate of source lines 101 and 172:
`self.vae_buffer_add_thresh >= np.random.uniform(0, 1)`. -/
def acceptGate (thresh u : Rat) : Bool := u ≤ thresh

/-- Source line 80: `len(np.unique(self.curr_timestep)) == 1`, i.e. the
cursor tensor is nonempty and all its entries are equal. -/
def uniformCursors (cfg : Config) (run : Running) : Bool :=
  cfg.num_processes != 0 &&
    (List.range cfg.num_processes).all (fun i => run.curr_timestep i == run.curr_timestep 0)

/-- Source line 97: `done.sum() == self.num_processes`, i.e. every entry of
the 0/1 tensor `done` is set. -/
def allDone (cfg : Config) (a : StepArgs) : Bool :=
  (List.range cfg.num_processes).all a.done

/-- The per-actor loop of source lines 148-212: slow insert when nothing was
inserted yet, then (when no batched reset happened) singular flush behind
the probability gate plus per-actor reset for each finished actor.
`k` is the index of the next unconsumed uniform draw; a draw is consumed
for each finished actor exactly when `max_buffer_size > 0`. -/
def insertLoop (cfg : Config) (a : StepArgs) (alreadyIns alreadyRes : Bool)
    (us : Nat → Rat) : List Nat → Nat → RingBuf → Running → RingBuf × Running
  | [], _, r, run => (r, run)
  | i :: rest, k, r, run =>
    let run1 := if alreadyIns then run else slowInsertActor cfg run a i
    if alreadyRes then
      insertLoop cfg a alreadyIns alreadyRes us rest k r run1
    else if a.done i then
      if 0 < cfg.max_buffer_size then
        let r1 := if acceptGate cfg.vae_buffer_add_thresh (us k) then
            singularFlushRing cfg r run1 i else r
        insertLoop cfg a alreadyIns alreadyRes us rest (k + 1) r1 (resetActor cfg run1 i)
      else
        insertLoop cfg a alreadyIns alreadyRes us rest k r (resetActor cfg run1 i)
    else
      insertLoop cfg a alreadyIns alreadyRes us rest k r run1

/-- Top-level `insert`, source lines 75-212. -/
def insert (s : Storage) (a : StepArgs) (us : Nat → Rat) : Storage :=
  let alreadyIns := uniformCursors s.cfg s.run
  let run1 := if alreadyIns then fastInsertRun s.cfg s.run a else s.run
  let alreadyRes := allDone s.cfg a
  let ring1 :=
    if alreadyRes ∧ 0 < s.cfg.max_buffer_size
        ∧ acceptGate s.cfg.vae_buffer_add_thresh (us 0) then
      batchedFlushRing s.cfg s.ring run1
    else s.ring
  let run2 := if alreadyRes then zeroRunning s.cfg run1 else run1
  let k0 := if alreadyRes ∧ 0 < s.cfg.max_buffer_size then 1 else 0
  if alreadyIns ∧ alreadyRes then { s with ring := ring1, run := run2 }
  else
    let p := insertLoop s.cfg a alreadyIns alreadyRes us
      (List.range s.cfg.num_processes) k0 ring1 run2
    { s with ring := p.1, run := p.2 }

/-- A sequence of `insert` calls, each with its own uniform-draw stream. -/
def insertSeq (s : Storage) : List (StepArgs × (Nat → Rat)) → Storage
  | [] => s
  | (a, us) :: rest => insertSeq (insert s a us) rest

/-- Model of `np.random.choice(pool, k, replace=False)` on a nonempty pool:
repeatedly pick position `us 0 % pool.length` and remove it, consuming one
stream element per pick.  It returns `k` distinct elements of the pool
whenever `k <= pool.length`, which is the documented numpy behaviour the
source relies on. -/
def npChoiceNoReplace : Nat → List Nat → (Nat → Nat) → List Nat
  | 0, _, _ => []
  | _ + 1, [], _ => []
  | k + 1, x :: xs, us =>
    let pool := x :: xs
    let j := us 0 % pool.length
    pool.getD j 0 :: npChoiceNoReplace k (pool.eraseIdx j) (fun m => us (m + 1))

/-- Model of `np.random.choice(range(n), k, replace=True)`. -/
def npChoiceReplace (n k : Nat) (us : Nat → Nat) : List Nat :=
  (List.range k).map (fun m => us m % n)

/-- Source line 225: `np.random.choice(range(self.buffer_len), batchsize, replace=replace)`. -/
def npChoice (n k : Nat) (replace : Bool) (us : Nat → Nat) : List Nat :=
  if replace then npChoiceReplace n k us else npChoiceNoReplace k (List.range n) us

/-- The gathered sample produced by `get_batch` (default mode): the drawn
ring-buffer indices, the column gathers of the stored fields at those
indices, and the corresponding true trajectory lengths.  The reward gather
switches to the intrinsic-reward series when both `save_intrinsic_reward`
and `value_prediction` hold (source line 234). -/
structure SampledBatch where
  indices : List Nat
  prev_obs : List (Nat → Int)
  next_obs : List (Nat → Int)
  actions : List (Nat → Int)
  rewards : List (Nat → Int)
  tasks : List Int
  trajectory_lens : List Nat

/-- Source lines 220-235 and 252-253 (`get_batch`, default return shape;
the extra mask rows of `value_prediction` mode and the flag gathers of
`memory_batch` mode are not modelled here):
`batchsize = min(self.buffer_len, batchsize)`, draw that many indices from
`range(self.buffer_len)` with or without replacement, and gather the stored
columns and trajectory lengths at the drawn indices. -/
def get_batch (s : Storage) (batchsize : Nat) (replace : Bool)
    (value_prediction : Bool) (us : Nat → Nat) : SampledBatch :=
  let b := min s.ring.buffer_len batchsize
  let idxs := npChoice s.ring.buffer_len b replace us
  { indices := idxs
    prev_obs := idxs.map (fun j => fun t => s.ring.prev_state t j)
    next_obs := idxs.map (fun j => fun t => s.ring.next_state t j)
    actions := idxs.map (fun j => fun t => s.ring.actions t j)
    rewards :=
      if s.cfg.save_intrinsic_reward && value_prediction then
        idxs.map (fun j => fun t => s.ring.intrinsic_rewards t j)
      else
        idxs.map (fun j => fun t => s.ring.rewards t j)
    tasks := idxs.map s.ring.tasks
    trajectory_lens := idxs.map s.ring.trajectory_lens }

/-- Source lines 214-218: `ready_for_update` and `__len__`. -/
def len (s : Storage) : Nat := s.ring.buffer_len

/-- Source lines 66-73: `get_running_batch` returns the running buffers,
substituting the intrinsic-reward series for the reward series when
`save_intrinsic_reward` is set. -/
def get_running_batch (s : Storage) :
    (Nat → Nat → Int) × (Nat → Nat → Int) × (Nat → Nat → Int) × (Nat → Nat → Int) × (Nat → Nat) :=
  (s.run.prev_state, s.run.next_state, s.run.actions,
    if s.cfg.save_intrinsic_reward then s.run.intrinsic_rewards else s.run.rewards,
    s.run.curr_timestep)

/-- Configuration used to study the ring buffer in isolation through the
singular write path. -/
def ringOnlyCfg (C : Nat) : Config :=
  { num_processes := 1, max_traj_len := 1, max_buffer_size := C
    vae_buffer_add_thresh := 1, save_intrinsic_reward := false, has_task := true }

/-- Running buffer holding the `n`-th completed trajectory in column 0:
every stored cell carries the trajectory's number and the cursor is
`n + 1` (its true length). -/
def trajRunning (n : Nat) : Running :=
  { curr_timestep := fun _ => n + 1
    prev_state := fun _ _ => (n : Int), next_state := fun _ _ => (n : Int)
    rewards := fun _ _ => (n : Int), mask := fun _ _ => (n : Int)
    bad_masks := fun _ _ => (n : Int), intrinsic_rewards := fun _ _ => (n : Int)
    actions := fun _ _ => (n : Int), done_task := fun _ _ => (n : Int)
    done_episode := fun _ _ => (n : Int), tasks := fun _ => (n : Int) }

/-- `n` singular flushes in a row (each one behind a passed gate) into a
fresh ring buffer of capacity `C`: the `m`-th flush stores trajectory `m`. -/
def flushIter (C : Nat) : Nat → RingBuf
  | 0 => initRing
  | n + 1 => singularFlushRing (ringOnlyCfg C) (flushIter C n) (trajRunning n) 0

/-! ### Concrete instances used by counterexamples and witnesses -/

/-- One actor, horizon 1, capacity 5, probability 1, task descriptors on. -/
def cfgA : Config :=
  { num_processes := 1, max_traj_len := 1, max_buffer_size := 5
    vae_buffer_add_thresh := 1, save_intrinsic_reward := false, has_task := true }

/-- A step record with distinguishable per-field payloads, no actor done,
task descriptor 3. -/
def argsA : StepArgs :=
  { prev_state := fun _ => 1, actions := fun _ => 2, next_state := fun _ => 3
    rewards := fun _ => 4, done := fun _ => false, task := some (fun _ => 3)
    masks := fun _ => 1, bad_masks := fun _ => 1, intrinsic_rewards := fun _ => 0
    done_task := fun _ => 7, done_episode := fun _ => 5 }

/-- Same step record with task descriptor 9. -/
def argsB2 : StepArgs := { argsA with task := some (fun _ => 9) }

/-- Same step record with every actor done. -/
def argsD : StepArgs := { argsA with done := fun _ => true }

/-- Capacity 2, probability 0. -/
def cfg0 : Config := { cfgA with vae_buffer_add_thresh := 0, max_buffer_size := 2 }

/-- Capacity 1, probability 1. -/
def cfg6 : Config := { cfgA with max_buffer_size := 1 }

/-- Capacity 2, probability 1. -/
def cfg7 : Config := { cfgA with max_buffer_size := 2 }

/-- Storage with intrinsic-reward tracking enabled, for the C10 witness. -/
def exSaveTrue : Storage := initStorage { cfgA with save_intrinsic_reward := true }

/-- Three actors, horizon 4, capacity 5, probability 1 — the end-to-end
scenario configuration. -/
def cfg2 : Config :=
  { num_processes := 3, max_traj_len := 4, max_buffer_size := 5
    vae_buffer_add_thresh := 1, save_intrinsic_reward := false, has_task := true }

/-- Step record of environment step `s` of the end-to-end scenario, with
distinguishable payloads per actor and the given done flags. -/
def c2step (s : Nat) (dn : Nat → Bool) : StepArgs :=
  { prev_state := fun i => (10 * s + i : Int)
    actions := fun i => (20 * s + i : Int)
    next_state := fun i => (30 * s + i : Int)
    rewards := fun i => (40 * s + i : Int)
    done := dn, task := none
    masks := fun _ => 1, bad_masks := fun _ => 1
    intrinsic_rewards := fun _ => 0
    done_task := fun _ => 0
    done_episode := fun i => if dn i then 1 else 0 }

/-- Uniform-draw stream for the scenario: every draw is 1/2 (it always
passes the probability-1 gate). -/
def c2us : Nat → Rat := fun _ => mkRat 1 2

/-- The end-to-end scenario driven through `insert`: actor 0's episode ends
at step 2, actors 1 and 2 end at step 4. -/
def c2_final : Storage :=
  insert (insert (insert (insert (initStorage cfg2)
    (c2step 1 (fun _ => false)) c2us)
    (c2step 2 (fun i => i == 0)) c2us)
    (c2step 3 (fun _ => false)) c2us)
    (c2step 4 (fun i => i == 1 || i == 2)) c2us

/-- Actor `i`'s running slot is fully cleared: cursor 0, every field column
zero (the intrinsic column only exists when tracked, the task latch only
when task descriptors exist). -/
def actorCleared (cfg : Config) (run : Running) (i : Nat) : Prop :=
  run.curr_timestep i = 0
  ∧ (∀ t, run.prev_state t i = 0 ∧ run.next_state t i = 0 ∧ run.rewards t i = 0
      ∧ run.mask t i = 0 ∧ run.bad_masks t i = 0 ∧ run.actions t i = 0
      ∧ run.done_task t i = 0 ∧ run.done_episode t i = 0
      ∧ (cfg.save_intrinsic_reward = true → run.intrinsic_rewards t i = 0))
  ∧ (cfg.has_task = true → run.tasks i = 0)

/-- The ring-buffer bounds that every reachable state actually satisfies:
both counters stay at or below the capacity. -/
def ringInv (s : Storage) : Prop :=
  s.ring.insert_idx ≤ s.cfg.max_buffer_size ∧ s.ring.buffer_len ≤ s.cfg.max_buffer_size

/-- Two actors, horizon 2, capacity 2, probability 1/2 — used to exercise a
rejected singular flush. -/
def cfg9 : Config :=
  { num_processes := 2, max_traj_len := 2, max_buffer_size := 2
    vae_buffer_add_thresh := mkRat 1 2, save_intrinsic_reward := true, has_task := true }

/-- Step record where exactly actor 0 finishes. -/
def args9 : StepArgs :=
  { prev_state := fun i => (50 + i : Int), actions := fun i => (60 + i : Int)
    next_state := fun i => (70 + i : Int), rewards := fun i => (80 + i : Int)
    done := fun i => i == 0, task := some (fun i => (90 + i : Int))
    masks := fun _ => 1, bad_masks := fun _ => 1
    intrinsic_rewards := fun i => (95 + i : Int)
    done_task := fun _ => 0, done_episode := fun i => if i == 0 then 1 else 0 }

/-- Storage with two trajectories already in the ring buffer
(`buffer_len = 2`), for the sampling witness. -/
def ex8 : Storage :=
  { cfg := cfg2
    ring := { initRing with
              buffer_len := 2, insert_idx := 2,
              trajectory_lens := fun j => if j < 2 then j + 2 else 0 }
    run := initRunning }

/-! ### Modular-arithmetic helpers for the ring-buffer iteration -/

/-- Successor modulo, away from the wrap point. -/
theorem mod_succ_ne (a C : Nat) (hC : 0 < C) (h : a % C ≠ C - 1) :
    (a + 1) % C = a % C + 1 := by
  have h1 : a % C < C := Nat.mod_lt _ hC
  have h2 : a % C + 1 < C := by omega
  rw [← Nat.mod_add_mod, Nat.mod_eq_of_lt h2]

/-- Successor modulo, at the wrap point. -/
theorem mod_succ_eq (a C : Nat) (hC : 0 < C) (h : a % C = C - 1) :
    (a + 1) % C = 0 := by
  rw [← Nat.mod_add_mod, h]
  have h3 : C - 1 + 1 = C := by omega
  rw [h3, Nat.mod_self]

/-- A residue below the modulus divides out: if `C` divides `n - j` with
`j ≤ n < ∞` and `j < C`, then `j` is the residue of `n`. -/
theorem mod_eq_of_dvd_sub (n j C : Nat) (hj : j < C) (hle : j ≤ n)
    (hd : C ∣ n - j) : n % C = j := by
  have h1 : j ≡ n [MOD C] := (Nat.modEq_iff_dvd' hle).2 hd
  have h2 : n % C = j % C := h1.symm
  rw [h2, Nat.mod_eq_of_lt hj]

/-- Subtracting its own residue leaves a multiple of the modulus. -/
theorem self_sub_mod (n C : Nat) : (n - n % C) % C = 0 := by
  have h0 := Nat.div_add_mod n C
  have h : n - n % C = C * (n / C) := by omega
  rw [h, Nat.mul_mod_right]

/-! ### The singular write path iterated on a fresh ring buffer -/

/-- One singular flush of trajectory `n`, characterised on the two tracked
fields: the wrap branch of source lines 174-181 picks the write slot and the
new `buffer_len`; the write stores payload `n` and length `n + 1` there. -/
theorem singularFlush_step (C : Nat) (r : RingBuf) (n : Nat) :
    (singularFlushRing (ringOnlyCfg C) r (trajRunning n) 0).insert_idx
      = (if r.insert_idx + 1 > C then 0 else r.insert_idx) + 1
    ∧ (singularFlushRing (ringOnlyCfg C) r (trajRunning n) 0).buffer_len
      = (if r.insert_idx + 1 > C then r.insert_idx else max r.buffer_len r.insert_idx)
    ∧ ∀ j, (singularFlushRing (ringOnlyCfg C) r (trajRunning n) 0).prev_state 0 j
        = (if j = (if r.insert_idx + 1 > C then 0 else r.insert_idx) then (n : Int)
            else r.prev_state 0 j)
      ∧ (singularFlushRing (ringOnlyCfg C) r (trajRunning n) 0).trajectory_lens j
        = (if j = (if r.insert_idx + 1 > C then 0 else r.insert_idx) then n + 1
            else r.trajectory_lens j) :=
  ⟨rfl, rfl, fun _ => ⟨rfl, rfl⟩⟩

/-- Closed form of `n` iterated singular flushes into a fresh ring of
capacity `C`: the cursor is `(n-1) % C + 1` (it parks AT the capacity after
a full cycle, wrapping only on the next flush); `buffer_len` trails at
`min (n-1) C`; slot `j < C` holds the most recent trajectory congruent to
`j` modulo `C`, i.e. trajectory `n - 1 - ((n - 1 - j) % C)`, with its stored
length one more than its number. -/
theorem flushIter_spec (C : Nat) (hC : 0 < C) : ∀ n : Nat,
    (flushIter C n).insert_idx = (if n = 0 then 0 else (n - 1) % C + 1)
    ∧ (flushIter C n).buffer_len = (if n = 0 then 0 else min (n - 1) C)
    ∧ ∀ j : Nat,
        (flushIter C n).prev_state 0 j
          = (if j < C ∧ j < n then ((n - 1 - ((n - 1 - j) % C) : Nat) : Int) else 0)
        ∧ (flushIter C n).trajectory_lens j
          = (if j < C ∧ j < n then n - ((n - 1 - j) % C) else 0) := by
  intro n
  induction n with
  | zero =>
    refine ⟨by simp [flushIter, initRing], by simp [flushIter, initRing], fun j => ?_⟩
    simp [flushIter, initRing]
  | succ n ih =>
    obtain ⟨ih1, ih2, ih3⟩ := ih
    obtain ⟨h1, h2, h3⟩ := singularFlush_step C (flushIter C n) n
    have hstep : flushIter C (n + 1)
        = singularFlushRing (ringOnlyCfg C) (flushIter C n) (trajRunning n) 0 := rfl
    have hmlt : (n - 1) % C < C := Nat.mod_lt _ hC
    by_cases hw : (flushIter C n).insert_idx + 1 > C
    · -- wrap branch
      have hn0 : n ≠ 0 := by
        intro h
        subst h
        rw [if_pos rfl] at ih1
        omega
      have hmod : (n - 1) % C = C - 1 := by
        rw [ih1, if_neg hn0] at hw
        omega
      have hnC : n % C = 0 := by
        have h4 := mod_succ_eq (n - 1) C hC hmod
        have h5 : n - 1 + 1 = n := by omega
        rwa [h5] at h4
      have hCn : C ≤ n := Nat.le_of_dvd (by omega) (Nat.dvd_of_mod_eq_zero hnC)
      refine ⟨?_, ?_, fun j => ?_⟩
      · rw [hstep, h1, if_pos hw, if_neg (Nat.succ_ne_zero n)]
        simp only [Nat.add_sub_cancel, hnC]
      · rw [hstep, h2, if_pos hw, ih1, if_neg hn0, if_neg (Nat.succ_ne_zero n), hmod]
        have h6 : min n C = C := by omega
        simp only [Nat.add_sub_cancel]
        omega
      · obtain ⟨h3a, h3b⟩ := h3 j
        obtain ⟨ihja, ihjb⟩ := ih3 j
        rw [hstep, h3a, h3b, if_pos hw]
        by_cases hj0 : j = 0
        · subst hj0
          have hcond : (0 < C ∧ 0 < n + 1) := ⟨hC, Nat.succ_pos n⟩
          rw [if_pos rfl, if_pos rfl, if_pos hcond, if_pos hcond]
          constructor <;> simp [Nat.add_sub_cancel, Nat.sub_zero, hnC]
        · rw [if_neg hj0, if_neg hj0, ihja, ihjb]
          by_cases hjC : j < C
          · have hjn : j < n := by omega
            have hcond : (j < C ∧ j < n) := ⟨hjC, hjn⟩
            have hcond2 : (j < C ∧ j < n + 1) := ⟨hjC, by omega⟩
            rw [if_pos hcond, if_pos hcond, if_pos hcond2, if_pos hcond2]
            have hane : (n - 1 - j) % C ≠ C - 1 := by
              intro hEq
              have h7 : (n - 1 - j + 1) % C = 0 := mod_succ_eq _ C hC hEq
              have h8 : n - 1 - j + 1 = n - j := by omega
              rw [h8] at h7
              have h9 : n % C = j :=
                mod_eq_of_dvd_sub n j C hjC (by omega) (Nat.dvd_of_mod_eq_zero h7)
              omega
            have h10 : (n - j) % C = (n - 1 - j) % C + 1 := by
              have h11 := mod_succ_ne (n - 1 - j) C hC hane
              have h12 : n - 1 - j + 1 = n - j := by omega
              rwa [h12] at h11
            have hble : (n - 1 - j) % C ≤ n - 1 - j := Nat.mod_le _ _
            constructor
            · simp only [Nat.add_sub_cancel]
              rw [h10]
              congr 1
              omega
            · simp only [Nat.add_sub_cancel]
              rw [h10]
              omega
          · have hcond : ¬(j < C ∧ j < n) := fun h => hjC h.1
            have hcond2 : ¬(j < C ∧ j < n + 1) := fun h => hjC h.1
            rw [if_neg hcond, if_neg hcond, if_neg hcond2, if_neg hcond2]
            exact ⟨rfl, rfl⟩
    · -- no-wrap branch
      by_cases hn0 : n = 0
      · subst hn0
        have hidx0 : (flushIter C 0).insert_idx = 0 := by rw [ih1, if_pos rfl]
        refine ⟨?_, ?_, fun j => ?_⟩
        · rw [hstep, h1, if_neg hw, hidx0]
          simp
        · rw [hstep, h2, if_neg hw, hidx0, ih2, if_pos rfl]
          simp
        · obtain ⟨h3a, h3b⟩ := h3 j
          obtain ⟨ihja, ihjb⟩ := ih3 j
          rw [hstep, h3a, h3b, if_neg hw, hidx0, ihja, ihjb]
          by_cases hj0 : j = 0
          · subst hj0
            rw [if_pos rfl, if_pos rfl, if_pos ⟨hC, Nat.one_pos⟩, if_pos ⟨hC, Nat.one_pos⟩]
            simp
          · have hcond : ¬(j < C ∧ j < 0) := fun h => Nat.not_lt_zero _ h.2
            have hcond2 : ¬(j < C ∧ j < 0 + 1) := fun h => hj0 (by omega)
            rw [if_neg hj0, if_neg hj0, if_neg hcond, if_neg hcond, if_neg hcond2,
              if_neg hcond2]
            exact ⟨rfl, rfl⟩
      · -- no wrap, n >= 1
        have hidx : (flushIter C n).insert_idx = (n - 1) % C + 1 := by
          rw [ih1, if_neg hn0]
        have hwle : (n - 1) % C + 2 ≤ C := by
          rw [hidx] at hw
          omega
        have hmne : (n - 1) % C ≠ C - 1 := by omega
        have hmod2 : n % C = (n - 1) % C + 1 := by
          have h4 := mod_succ_ne (n - 1) C hC hmne
          have h5 : n - 1 + 1 = n := by omega
          rwa [h5] at h4
        have hnCne : n ≠ C := by
          intro h
          rw [h] at hmne
          exact hmne (Nat.mod_eq_of_lt (by omega))
        refine ⟨?_, ?_, fun j => ?_⟩
        · rw [hstep, h1, if_neg hw, hidx, if_neg (Nat.succ_ne_zero n)]
          simp only [Nat.add_sub_cancel, hmod2]
        · rw [hstep, h2, if_neg hw, hidx, ih2, if_neg hn0, if_neg (Nat.succ_ne_zero n)]
          simp only [Nat.add_sub_cancel]
          have hcase : n < C ∨ C < n := by
            rcases Nat.lt_trichotomy n C with h | h | h
            · exact Or.inl h
            · exact absurd h hnCne
            · exact Or.inr h
          rcases hcase with h | h
          · have h6 : (n - 1) % C = n - 1 := Nat.mod_eq_of_lt (by omega)
            rw [h6]
            omega
          · omega
        · obtain ⟨h3a, h3b⟩ := h3 j
          obtain ⟨ihja, ihjb⟩ := ih3 j
          rw [hstep, h3a, h3b, if_neg hw, hidx, ihja, ihjb]
          by_cases hje : j = (n - 1) % C + 1
          · -- the written slot, j = n % C
            have hjC : j < C := by omega
            have hjn : j ≤ n := by
              have := Nat.mod_le n C
              omega
            have hcond2 : (j < C ∧ j < n + 1) := ⟨hjC, by omega⟩
            rw [if_pos hje, if_pos hje, if_pos hcond2, if_pos hcond2]
            have hkey : (n - j) % C = 0 := by
              have h7 : j = n % C := by omega
              rw [h7]
              exact self_sub_mod n C
            refine ⟨?_, ?_⟩
            · simp only [Nat.add_sub_cancel, hkey, Nat.sub_zero]
            · simp only [Nat.add_sub_cancel, hkey, Nat.sub_zero]
          · rw [if_neg hje, if_neg hje]
            by_cases hjC : j < C
            · by_cases hjn : j < n
              · have hcond : (j < C ∧ j < n) := ⟨hjC, hjn⟩
                have hcond2 : (j < C ∧ j < n + 1) := ⟨hjC, by omega⟩
                rw [if_pos hcond, if_pos hcond, if_pos hcond2, if_pos hcond2]
                have hane : (n - 1 - j) % C ≠ C - 1 := by
                  intro hEq
                  have h7 : (n - 1 - j + 1) % C = 0 := mod_succ_eq _ C hC hEq
                  have h8 : n - 1 - j + 1 = n - j := by omega
                  rw [h8] at h7
                  have h9 : n % C = j :=
                    mod_eq_of_dvd_sub n j C hjC (by omega) (Nat.dvd_of_mod_eq_zero h7)
                  omega
                have h10 : (n - j) % C = (n - 1 - j) % C + 1 := by
                  have h11 := mod_succ_ne (n - 1 - j) C hC hane
                  have h12 : n - 1 - j + 1 = n - j := by omega
                  rwa [h12] at h11
                have hble : (n - 1 - j) % C ≤ n - 1 - j := Nat.mod_le _ _
                constructor
                · simp only [Nat.add_sub_cancel]
                  rw [h10]
                  congr 1
                  omega
                · simp only [Nat.add_sub_cancel]
                  rw [h10]
                  omega
              · -- j < C, j >= n: only j = n is in range of the new condition
                have hjeqn : j = n ∨ n + 1 ≤ j := by omega
                rcases hjeqn with h | h
                · exfalso
                  subst h
                  have h7 : j % C = j := Nat.mod_eq_of_lt hjC
                  omega
                · have hcond : ¬(j < C ∧ j < n) := fun hcc => hjn hcc.2
                  have hcond2 : ¬(j < C ∧ j < n + 1) := fun hcc => by omega
                  rw [if_neg hcond, if_neg hcond, if_neg hcond2, if_neg hcond2]
                  exact ⟨rfl, rfl⟩
            · have hcond : ¬(j < C ∧ j < n) := fun hcc => hjC hcc.1
              have hcond2 : ¬(j < C ∧ j < n + 1) := fun hcc => hjC hcc.1
              rw [if_neg hcond, if_neg hcond, if_neg hcond2, if_neg hcond2]
              exact ⟨rfl, rfl⟩

/-! ### Helper lemmas about the model of drawing without replacement -/

/-- An in-bounds `getD` is a member of the list. -/
theorem getD_mem_of_lt (l : List Nat) (j : Nat) (h : j < l.length) : l.getD j 0 ∈ l := by
  rw [List.getD_eq_getElem l 0 h]
  exact List.getElem_mem h

/-- In a duplicate-free list, the element at position `j` does not survive
the removal of position `j`. -/
theorem getD_not_mem_eraseIdx (l : List Nat) (j : Nat) (h : j < l.length)
    (hnd : l.Nodup) : l.getD j 0 ∉ l.eraseIdx j := by
  rw [List.getD_eq_getElem l 0 h]
  intro hmem
  rcases List.mem_eraseIdx_iff_getElem.1 hmem with ⟨i, hi, hij, hEq⟩
  exact hij ((hnd.getElem_inj_iff).1 hEq)

/-- Drawing `k` elements without replacement from a pool of at least `k`
elements returns exactly `k` of them. -/
theorem npChoiceNoReplace_length :
    ∀ (k : Nat) (pool : List Nat) (us : Nat → Nat), k ≤ pool.length →
      (npChoiceNoReplace k pool us).length = k := by
  intro k
  induction k with
  | zero => intro pool us _; rfl
  | succ k ih =>
    intro pool us hk
    match pool with
    | [] => simp at hk
    | x :: xs =>
      simp only [List.length_cons] at hk
      have hj : us 0 % (xs.length + 1) < xs.length + 1 := Nat.mod_lt _ (Nat.succ_pos _)
      simp only [npChoiceNoReplace, List.length_cons]
      rw [ih _ _ (by simp only [List.length_eraseIdx, List.length_cons, if_pos hj]; omega)]

/-- Every element drawn without replacement comes from the pool. -/
theorem npChoiceNoReplace_mem :
    ∀ (k : Nat) (pool : List Nat) (us : Nat → Nat) (x : Nat),
      x ∈ npChoiceNoReplace k pool us → x ∈ pool := by
  intro k
  induction k with
  | zero => intro pool us x hx; simp [npChoiceNoReplace] at hx
  | succ k ih =>
    intro pool us x hx
    match pool with
    | [] => simp [npChoiceNoReplace] at hx
    | y :: ys =>
      have hpos : 0 < (y :: ys).length := by simp
      have hj : us 0 % (y :: ys).length < (y :: ys).length := Nat.mod_lt _ hpos
      simp only [npChoiceNoReplace, List.mem_cons] at hx
      rcases hx with hx | hx
      · exact hx ▸ getD_mem_of_lt _ _ hj
      · exact (List.eraseIdx_sublist _ _).subset (ih _ _ _ hx)

/-- Elements drawn without replacement from a duplicate-free pool are
pairwise distinct. -/
theorem npChoiceNoReplace_nodup :
    ∀ (k : Nat) (pool : List Nat) (us : Nat → Nat), pool.Nodup →
      (npChoiceNoReplace k pool us).Nodup := by
  intro k
  induction k with
  | zero => intro pool us _; exact List.nodup_nil
  | succ k ih =>
    intro pool us hnd
    match pool with
    | [] => exact List.nodup_nil
    | y :: ys =>
      have hpos : 0 < (y :: ys).length := by simp
      have hj : us 0 % (y :: ys).length < (y :: ys).length := Nat.mod_lt _ hpos
      simp only [npChoiceNoReplace]
      refine List.Nodup.cons ?_ (ih _ _ (hnd.sublist (List.eraseIdx_sublist _ _)))
      intro hmem
      exact getD_not_mem_eraseIdx _ _ hj hnd (npChoiceNoReplace_mem _ _ _ _ hmem)

/-! ### Loop lemmas about the per-actor section of insert -/

/-- The per-actor loop never touches the ring buffer when every probability
gate it consults fails. -/
theorem insertLoop_ring_gate_false (cfg : Config) (a : StepArgs) (aI aR : Bool)
    (us : Nat → Rat)
    (hfail : ∀ m, acceptGate cfg.vae_buffer_add_thresh (us m) = false) :
    ∀ (actors : List Nat) (k : Nat) (r : RingBuf) (run : Running),
      (insertLoop cfg a aI aR us actors k r run).1 = r := by
  intro actors
  induction actors with
  | nil => intro k r run; rfl
  | cons i rest ih =>
    intro k r run
    simp only [insertLoop]
    by_cases haR : aR = true
    · rw [if_pos haR]
      exact ih _ _ _
    · rw [if_neg haR]
      by_cases hd : a.done i = true
      · rw [if_pos hd]
        by_cases hmb : 0 < cfg.max_buffer_size
        · rw [if_pos hmb, hfail k, if_neg Bool.false_ne_true]
          exact ih _ _ _
        · rw [if_neg hmb]
          exact ih _ _ _
      · rw [if_neg hd]
        exact ih _ _ _

/-- When the batched reset already happened, the loop only performs slow
inserts and never touches the ring buffer. -/
theorem insertLoop_ring_alreadyRes (cfg : Config) (a : StepArgs) (aI : Bool)
    (us : Nat → Rat) :
    ∀ (actors : List Nat) (k : Nat) (r : RingBuf) (run : Running),
      (insertLoop cfg a aI true us actors k r run).1 = r := by
  intro actors
  induction actors with
  | nil => intro k r run; rfl
  | cons i rest ih =>
    intro k r run
    simp only [insertLoop]
    rw [if_pos trivial]
    exact ih _ _ _

/-- `insert` never changes the configuration. -/
theorem insert_cfg (s : Storage) (a : StepArgs) (us : Nat → Rat) :
    (insert s a us).cfg = s.cfg := by
  simp only [insert]
  split <;> rfl

/-- A whole `insert` call leaves the ring buffer untouched when every
probability gate fails (in particular whenever the threshold is 0 and all
draws are positive). -/
theorem insert_ring_gate_false (s : Storage) (a : StepArgs) (us : Nat → Rat)
    (hfail : ∀ m, acceptGate s.cfg.vae_buffer_add_thresh (us m) = false) :
    (insert s a us).ring = s.ring := by
  have hloop := insertLoop_ring_gate_false s.cfg a (uniformCursors s.cfg s.run)
    (allDone s.cfg a) us hfail
  have hcond : ¬(allDone s.cfg a = true ∧ 0 < s.cfg.max_buffer_size
      ∧ acceptGate s.cfg.vae_buffer_add_thresh (us 0) = true) := by
    intro h
    rw [hfail 0] at h
    exact Bool.false_ne_true h.2.2
  simp only [insert]
  by_cases hIR : uniformCursors s.cfg s.run = true ∧ allDone s.cfg a = true
  · rw [if_pos hIR, if_neg hcond]
  · rw [if_neg hIR, if_neg hcond]
    exact hloop _ _ _ _

/-- The per-actor loop keeps both ring counters at or below the capacity. -/
theorem insertLoop_ring_bounds (cfg : Config) (a : StepArgs) (aI aR : Bool)
    (us : Nat → Rat) :
    ∀ (actors : List Nat) (k : Nat) (r : RingBuf) (run : Running),
      r.insert_idx ≤ cfg.max_buffer_size → r.buffer_len ≤ cfg.max_buffer_size →
      (insertLoop cfg a aI aR us actors k r run).1.insert_idx ≤ cfg.max_buffer_size
      ∧ (insertLoop cfg a aI aR us actors k r run).1.buffer_len ≤ cfg.max_buffer_size := by
  intro actors
  induction actors with
  | nil => intro k r run h1 h2; exact ⟨h1, h2⟩
  | cons i rest ih =>
    intro k r run h1 h2
    simp only [insertLoop]
    by_cases haR : aR = true
    · rw [if_pos haR]
      exact ih _ _ _ h1 h2
    · rw [if_neg haR]
      by_cases hd : a.done i = true
      · rw [if_pos hd]
        by_cases hmb : 0 < cfg.max_buffer_size
        · rw [if_pos hmb]
          by_cases hg : acceptGate cfg.vae_buffer_add_thresh (us k) = true
          · rw [hg, if_pos rfl]
            set run1 := if aI = true then run else slowInsertActor cfg run a i with hrun1
            have hnew1 : (singularFlushRing cfg r run1 i).insert_idx
                = (if r.insert_idx + 1 > cfg.max_buffer_size then 0 else r.insert_idx) + 1 :=
              rfl
            have hnew2 : (singularFlushRing cfg r run1 i).buffer_len
                = (if r.insert_idx + 1 > cfg.max_buffer_size then r.insert_idx
                    else max r.buffer_len r.insert_idx) := rfl
            refine ih _ _ _ ?_ ?_
            · rw [hnew1]
              split <;> omega
            · rw [hnew2]
              split <;> omega
          · rw [Bool.not_eq_true] at hg
            rw [hg, if_neg Bool.false_ne_true]
            exact ih _ _ _ h1 h2
        · rw [if_neg hmb]
          exact ih _ _ _ h1 h2
      · rw [if_neg hd]
        exact ih _ _ _ h1 h2

/-- A whole `insert` call keeps both ring counters at or below capacity,
provided the actor count does not exceed the capacity. -/
theorem insert_ring_bounds (s : Storage) (a : StepArgs) (us : Nat → Rat)
    (hN : s.cfg.num_processes ≤ s.cfg.max_buffer_size)
    (h1 : s.ring.insert_idx ≤ s.cfg.max_buffer_size)
    (h2 : s.ring.buffer_len ≤ s.cfg.max_buffer_size) :
    (insert s a us).ring.insert_idx ≤ s.cfg.max_buffer_size
    ∧ (insert s a us).ring.buffer_len ≤ s.cfg.max_buffer_size := by
  simp only [insert]
  have hbatched : ∀ run1 : Running,
      (batchedFlushRing s.cfg s.ring run1).insert_idx ≤ s.cfg.max_buffer_size
      ∧ (batchedFlushRing s.cfg s.ring run1).buffer_len ≤ s.cfg.max_buffer_size := by
    intro run1
    have hb1 : (batchedFlushRing s.cfg s.ring run1).insert_idx
        = (if s.ring.insert_idx + s.cfg.num_processes > s.cfg.max_buffer_size then 0
            else s.ring.insert_idx) + s.cfg.num_processes := rfl
    have hb2 : (batchedFlushRing s.cfg s.ring run1).buffer_len
        = (if s.ring.insert_idx + s.cfg.num_processes > s.cfg.max_buffer_size
            then s.ring.insert_idx else max s.ring.buffer_len s.ring.insert_idx) := rfl
    constructor
    · rw [hb1]
      split <;> omega
    · rw [hb2]
      split <;> omega
  by_cases hflush : allDone s.cfg a = true ∧ 0 < s.cfg.max_buffer_size
      ∧ acceptGate s.cfg.vae_buffer_add_thresh (us 0) = true
  · rw [if_pos hflush]
    by_cases hIR : uniformCursors s.cfg s.run = true ∧ allDone s.cfg a = true
    · rw [if_pos hIR]
      exact hbatched _
    · rw [if_neg hIR]
      exact insertLoop_ring_bounds _ _ _ _ _ _ _ _ _ (hbatched _).1 (hbatched _).2
  · rw [if_neg hflush]
    by_cases hIR : uniformCursors s.cfg s.run = true ∧ allDone s.cfg a = true
    · rw [if_pos hIR]
      exact ⟨h1, h2⟩
    · rw [if_neg hIR]
      exact insertLoop_ring_bounds _ _ _ _ _ _ _ _ _ h1 h2

/-- The counters stay bounded along any sequence of `insert` calls. -/
theorem insertSeq_ring_bounds (calls : List (StepArgs × (Nat → Rat))) :
    ∀ s : Storage, s.cfg.num_processes ≤ s.cfg.max_buffer_size → ringInv s →
      ringInv (insertSeq s calls) := by
  induction calls with
  | nil => intro s _ h; exact h
  | cons p rest ih =>
    intro s hN hInv
    obtain ⟨pa, pu⟩ := p
    simp only [insertSeq]
    refine ih (insert s pa pu) ?_ ?_
    · rw [insert_cfg]
      exact hN
    · have hb := insert_ring_bounds s pa pu hN hInv.1 hInv.2
      unfold ringInv
      rw [insert_cfg]
      exact hb

/-! ### Clearing lemmas for the per-actor running slots -/

/-- A slow insert addressed to a different actor leaves a cleared slot
cleared. -/
theorem slowInsertActor_cleared (cfg : Config) (run : Running) (a : StepArgs)
    (i j : Nat) (hne : i ≠ j) (hc : actorCleared cfg run i) :
    actorCleared cfg (slowInsertActor cfg run a j) i := by
  obtain ⟨hcur, hfld, htask⟩ := hc
  refine ⟨?_, fun t => ?_, htask⟩
  · simp only [slowInsertActor]
    rw [if_neg hne]
    exact hcur
  · obtain ⟨f1, f2, f3, f4, f5, f6, f7, f8, f9⟩ := hfld t
    have hcc : ¬(t = run.curr_timestep j ∧ i = j) := fun h => hne h.2
    refine ⟨?_, ?_, ?_, ?_, ?_, ?_, ?_, ?_, fun hsave => ?_⟩ <;>
      simp_all [slowInsertActor, hcc]

/-- Resetting an actor clears its slot. -/
theorem resetActor_cleared_self (cfg : Config) (run : Running) (i : Nat) :
    actorCleared cfg (resetActor cfg run i) i := by
  refine ⟨?_, fun t => ?_, fun htask => ?_⟩
  · simp [resetActor]
  · refine ⟨?_, ?_, ?_, ?_, ?_, ?_, ?_, ?_, fun hsave => ?_⟩ <;>
      simp_all [resetActor]
  · simp [resetActor, htask]

/-- Resetting a different actor leaves a cleared slot cleared. -/
theorem resetActor_cleared_ne (cfg : Config) (run : Running) (i j : Nat)
    (hne : i ≠ j) (hc : actorCleared cfg run i) :
    actorCleared cfg (resetActor cfg run j) i := by
  obtain ⟨hcur, hfld, htask⟩ := hc
  refine ⟨?_, fun t => ?_, fun ht => ?_⟩
  · simp_all [resetActor, hne]
  · obtain ⟨f1, f2, f3, f4, f5, f6, f7, f8, f9⟩ := hfld t
    refine ⟨?_, ?_, ?_, ?_, ?_, ?_, ?_, ?_, fun hsave => ?_⟩ <;>
      simp_all [resetActor, hne]
  · simp_all [resetActor, hne]

/-- Zeroing the whole running buffer clears every slot. -/
theorem zeroRunning_cleared (cfg : Config) (run : Running) (i : Nat) :
    actorCleared cfg (zeroRunning cfg run) i := by
  refine ⟨?_, fun t => ?_, fun htask => ?_⟩
  · simp [zeroRunning]
  · refine ⟨?_, ?_, ?_, ?_, ?_, ?_, ?_, ?_, fun hsave => ?_⟩ <;>
      simp_all [zeroRunning]
  · simp [zeroRunning, htask]

/-- Tail lemma: over a stretch of actors none of which is finished (and which
does not contain `i`), the loop leaves the ring untouched and keeps actor
`i`'s slot cleared. -/
theorem insertLoop_tail (cfg : Config) (a : StepArgs) (aI aR : Bool)
    (us : Nat → Rat) (i : Nat) :
    ∀ (actors : List Nat) (k : Nat) (r : RingBuf) (run : Running),
      (∀ j ∈ actors, a.done j = false) → i ∉ actors → actorCleared cfg run i →
      (insertLoop cfg a aI aR us actors k r run).1 = r
      ∧ actorCleared cfg (insertLoop cfg a aI aR us actors k r run).2 i := by
  intro actors
  induction actors with
  | nil => intro k r run _ _ hc; exact ⟨rfl, hc⟩
  | cons j rest ih =>
    intro k r run hdone hmem hc
    have hdj : a.done j = false := hdone j (List.mem_cons_self j rest)
    have hine : i ≠ j := fun h => hmem (h ▸ List.mem_cons_self j rest)
    have hirest : i ∉ rest := fun h => hmem (List.mem_cons_of_mem j h)
    have hrest : ∀ j' ∈ rest, a.done j' = false :=
      fun j' hj' => hdone j' (List.mem_cons_of_mem j hj')
    have hrun1 : actorCleared cfg
        (if aI = true then run else slowInsertActor cfg run a j) i := by
      by_cases haI : aI = true
      · rw [if_pos haI]; exact hc
      · rw [if_neg haI]; exact slowInsertActor_cleared cfg run a i j hine hc
    simp only [insertLoop]
    by_cases haR : aR = true
    · rw [if_pos haR]
      exact ih _ _ _ hrest hirest hrun1
    · rw [if_neg haR, hdj, if_neg Bool.false_ne_true]
      exact ih _ _ _ hrest hirest hrun1

/-- Main loop lemma for a single finished actor whose admission draw fails:
over a duplicate-free actor list in which only `i` can be finished, with the
pending draw failing the gate, the loop leaves the ring untouched; and when
`i` is in the list and finished, its slot leaves the loop cleared. -/
theorem insertLoop_single_done (cfg : Config) (a : StepArgs) (aI : Bool)
    (us : Nat → Rat) (i : Nat) :
    ∀ (actors : List Nat) (k : Nat) (r : RingBuf) (run : Running),
      actors.Nodup →
      (∀ j ∈ actors, a.done j = true → j = i) →
      acceptGate cfg.vae_buffer_add_thresh (us k) = false →
      (insertLoop cfg a aI false us actors k r run).1 = r
      ∧ (i ∈ actors → a.done i = true →
          actorCleared cfg (insertLoop cfg a aI false us actors k r run).2 i) := by
  intro actors
  induction actors with
  | nil =>
    intro k r run _ _ _
    exact ⟨rfl, fun h => absurd h (List.not_mem_nil i)⟩
  | cons j rest ih =>
    intro k r run hnd huniq hfail
    obtain ⟨hjrest, hndrest⟩ := List.nodup_cons.mp hnd
    simp only [insertLoop]
    rw [if_neg Bool.false_ne_true]
    by_cases hdj : a.done j = true
    · have hji : j = i := huniq j (List.mem_cons_self j rest) hdj
      subst hji
      have hirest : j ∉ rest := hjrest
      have hrest : ∀ j' ∈ rest, a.done j' = false := by
        intro j' hj'
        cases hdd : a.done j' with
        | false => rfl
        | true =>
          exact absurd (huniq j' (List.mem_cons_of_mem j hj') hdd ▸ hj') hirest
      have hclr : actorCleared cfg
          (resetActor cfg (if aI = true then run else slowInsertActor cfg run a j) j) j :=
        resetActor_cleared_self cfg _ j
      rw [if_pos hdj]
      by_cases hmb : 0 < cfg.max_buffer_size
      · rw [if_pos hmb, hfail, if_neg Bool.false_ne_true]
        have htail := insertLoop_tail cfg a aI false us j rest (k + 1) r _ hrest hirest hclr
        exact ⟨htail.1, fun _ _ => htail.2⟩
      · rw [if_neg hmb]
        have htail := insertLoop_tail cfg a aI false us j rest k r _ hrest hirest hclr
        exact ⟨htail.1, fun _ _ => htail.2⟩
    · rw [if_neg hdj]
      have hrec := ih k r (if aI = true then run else slowInsertActor cfg run a j)
        hndrest (fun j' hj' hd => huniq j' (List.mem_cons_of_mem j hj') hd) hfail
      refine ⟨hrec.1, fun hmem hdi => ?_⟩
      have hij : i ≠ j := fun h => hdj (h ▸ hdi)
      have himem : i ∈ rest := by
        rcases List.mem_cons.mp hmem with h | h
        · exact absurd h hij
        · exact h
      exact hrec.2 himem hdi

/-! ### C1 -/

/-- C1: the fast insert path and the slow per-actor path are NOT bit-identical
on the same batch from the same uniform-cursor state.  On the concrete input
`argsA` (with `done_task = 7`, `done_episode = 5`, task descriptor 3) the fast
path stores 5 in the running done-episode slot and records the task, while the
slow path stores 7 there (source line 160 copies `done_task`) and leaves the
task at 0 (the `is None` guard of source line 162 never fires), so the
resulting running buffers differ. -/
theorem fast_slow_path_mismatch :
    (fastInsertRun cfgA initRunning argsA).done_episode 0 0 = 5
    ∧ (slowInsertAll cfgA initRunning argsA).done_episode 0 0 = 7
    ∧ (fastInsertRun cfgA initRunning argsA).tasks 0 = 3
    ∧ (slowInsertAll cfgA initRunning argsA).tasks 0 = 0
    ∧ (fastInsertRun cfgA initRunning argsA).curr_timestep 0
        = (slowInsertAll cfgA initRunning argsA).curr_timestep 0
    ∧ fastInsertRun cfgA initRunning argsA ≠ slowInsertAll cfgA initRunning argsA := by
  refine ⟨by decide, by decide, by decide, by decide, by decide, fun h => ?_⟩
  have h0 := congrArg (fun r => r.done_episode 0 0) h
  revert h0
  decide

/-! ### C4 -/

/-- C4: the task descriptor is NOT latched once per trajectory.  On the fast
path a second step supplying task 9 overwrites the previously recorded task 3
(source line 92 is a plain assignment), and on the slow path a supplied task
is never recorded at all (source line 162 guards the write with
`running_tasks[i] is None`, which is never true for a tensor row). -/
theorem task_latch_broken :
    (fastInsertRun cfgA initRunning argsA).tasks 0 = 3
    ∧ (fastInsertRun cfgA (fastInsertRun cfgA initRunning argsA) argsB2).tasks 0 = 9
    ∧ (slowInsertActor cfgA initRunning argsA 0).tasks 0 = 0 := by
  decide

/-! ### C3, counterexample part -/

/-- C3 counterexample: with admission probability 0 a completed trajectory IS
still written to the ring buffer when the uniform draw is exactly 0 (a value
`np.random.uniform(0, 1)` can return), because the gate of source lines
101/172 is `thresh >= u`, not `thresh > u`: after one all-done insert at
threshold 0 with draw 0 the cursor has advanced and the trajectory length was
recorded. -/
theorem zero_thresh_accepts_zero_draw :
    cfg0.vae_buffer_add_thresh = 0
    ∧ (insert (initStorage cfg0) argsD (fun _ => 0)).ring.insert_idx = 1
    ∧ (insert (initStorage cfg0) argsD (fun _ => 0)).ring.trajectory_lens 0 = 1 := by
  decide

/-! ### C6, counterexample part -/

/-- C6 counterexample: the claimed invariant `insert_cursor < max_buffer_size`
fails on a reachable state: with capacity 1, a single admitted all-done insert
leaves `insert_idx = 1 = max_buffer_size` (the wrap only happens lazily at the
start of the NEXT admission, source lines 103/174). -/
theorem insert_cursor_reaches_capacity :
    cfg6.max_buffer_size = 1
    ∧ (insert (initStorage cfg6) argsD (fun _ => mkRat 1 2)).ring.insert_idx = 1 := by
  decide

/-! ### C7, counterexample part -/

/-- C7 counterexample: immediately after the first admitted insertion (no
wrap), the written trajectory sits at index 0 with its data and length stored,
yet `buffer_len = 0` (source line 110 takes `max(buffer_len, insert_idx)`
BEFORE the write), so the just-written trajectory is not at an index strictly
below `filled_count`. -/
theorem latest_write_not_below_buffer_len :
    (insert (initStorage cfg7) argsD (fun _ => mkRat 1 2)).ring.trajectory_lens 0 = 1
    ∧ (insert (initStorage cfg7) argsD (fun _ => mkRat 1 2)).ring.prev_state 0 0 = 1
    ∧ (insert (initStorage cfg7) argsD (fun _ => mkRat 1 2)).ring.buffer_len = 0 := by
  decide

/-! ### C3, amended part -/

/-- C3 amended: the gate is `u <= thresh`, so at threshold 0 a trajectory is
rejected for every draw `u > 0` (and over any sequence of insert calls whose
draws are all positive the ring buffer never changes, so `filled_count`
stays 0 indefinitely), while the draw `u = 0` is accepted; at threshold 1
every draw in `[0, 1)` passes the gate, and an all-done insert then performs
the batched ring write. -/
theorem threshold_edge_cases :
    (∀ u : Rat, 0 < u → acceptGate 0 u = false)
    ∧ (∀ u : Rat, 0 ≤ u → u < 1 → acceptGate 1 u = true)
    ∧ (∀ s : Storage, s.cfg.vae_buffer_add_thresh = 0 →
        ∀ calls : List (StepArgs × (Nat → Rat)),
          (∀ p ∈ calls, ∀ m, 0 < p.2 m) →
          (insertSeq s calls).ring = s.ring)
    ∧ (∀ (s : Storage) (a : StepArgs) (us : Nat → Rat),
        allDone s.cfg a = true → 0 < s.cfg.max_buffer_size →
        s.cfg.vae_buffer_add_thresh = 1 → us 0 < 1 →
        (insert s a us).ring = batchedFlushRing s.cfg s.ring
          (if uniformCursors s.cfg s.run then fastInsertRun s.cfg s.run a else s.run)) := by
  refine ⟨?_, ?_, ?_, ?_⟩
  · intro u hu
    exact decide_eq_false (not_le.mpr hu)
  · intro u _ hu1
    exact decide_eq_true (le_of_lt hu1)
  · intro s h0 calls
    induction calls generalizing s with
    | nil => intro _; rfl
    | cons p rest ih =>
      intro hpos
      obtain ⟨pa, pu⟩ := p
      simp only [insertSeq]
      have hfail : ∀ m, acceptGate s.cfg.vae_buffer_add_thresh (pu m) = false := by
        intro m
        rw [h0]
        exact decide_eq_false (not_le.mpr (hpos (pa, pu) (by simp) m))
      have h1 : (insert s pa pu).ring = s.ring := insert_ring_gate_false s pa pu hfail
      have h2 := ih (insert s pa pu) (by rw [insert_cfg]; exact h0)
        (fun q hq m => hpos q (by simp [hq]) m)
      rw [h2, h1]
  · intro s a us hAll hmb h1 hlt
    have hgate : acceptGate s.cfg.vae_buffer_add_thresh (us 0) = true := by
      rw [h1]
      exact decide_eq_true (le_of_lt hlt)
    simp only [insert]
    by_cases hI : uniformCursors s.cfg s.run = true
    · rw [if_pos ⟨hI, hAll⟩, if_pos ⟨hAll, hmb, hgate⟩]
    · rw [hAll]
      rw [if_neg (fun hcc : uniformCursors s.cfg s.run = true ∧ true = true => hI hcc.1)]
      have hk0 : (true = true ∧ 0 < s.cfg.max_buffer_size) := ⟨rfl, hmb⟩
      have hfl : (true = true ∧ 0 < s.cfg.max_buffer_size
          ∧ acceptGate s.cfg.vae_buffer_add_thresh (us 0) = true) := ⟨rfl, hmb, hgate⟩
      rw [if_pos hk0, if_pos hfl]
      exact insertLoop_ring_alreadyRes _ _ _ _ _ _ _ _

/-- C3 witness: the gate evaluated at the concrete draw 1/2 under both
thresholds. -/
theorem threshold_edge_cases_witness :
    acceptGate 0 (mkRat 1 2) = false ∧ acceptGate 1 (mkRat 1 2) = true :=
  ⟨threshold_edge_cases.1 (mkRat 1 2) (by decide),
    threshold_edge_cases.2.1 (mkRat 1 2) (by decide) (by decide)⟩

/-! ### C6, amended part -/

/-- C6 amended: the invariant that actually holds (and is preserved by every
`insert` and satisfied by every state reachable from construction, as long
as the actor count does not exceed the capacity) is
`insert_idx <= max_buffer_size` and `buffer_len <= max_buffer_size`; the
cursor can legitimately SIT AT the capacity, the wrap being applied lazily
by the next admission. -/
theorem ring_cursor_invariant_amended :
    (∀ (s : Storage) (a : StepArgs) (us : Nat → Rat),
        s.cfg.num_processes ≤ s.cfg.max_buffer_size → ringInv s → ringInv (insert s a us))
    ∧ (∀ (cfg : Config) (calls : List (StepArgs × (Nat → Rat))),
        cfg.num_processes ≤ cfg.max_buffer_size →
        ringInv (insertSeq (initStorage cfg) calls)) := by
  constructor
  · intro s a us hN hInv
    unfold ringInv
    rw [insert_cfg]
    exact insert_ring_bounds s a us hN hInv.1 hInv.2
  · intro cfg calls hN
    exact insertSeq_ring_bounds calls _ hN ⟨Nat.zero_le _, Nat.zero_le _⟩

/-- C6 witness: the reachability part applied to a concrete configuration
and the empty call sequence. -/
theorem ring_cursor_invariant_amended_witness :
    ringInv (insertSeq (initStorage cfgA) []) :=
  ring_cursor_invariant_amended.2 cfgA [] (by decide)

/-! ### C5 -/

/-- C5: after `C + k` singular admitted flushes (0 < k < C) into a fresh ring
of capacity `C`, the cursor is exactly `k`, and slot `j` holds trajectory
`C + j` for `j < k` (the wrapped-around recent ones, which overwrote the
oldest trajectories `0..k-1`) and trajectory `j` for `k ≤ j < C`: exactly
the most recent `C` trajectories at their correct offsets, with their
recorded lengths. -/
theorem ring_wrap_correct : ∀ C k : Nat, 0 < k → k < C →
    (flushIter C (C + k)).insert_idx = k
    ∧ ∀ j, j < C →
        (flushIter C (C + k)).prev_state 0 j = (((if j < k then C + j else j) : Nat) : Int)
        ∧ (flushIter C (C + k)).trajectory_lens j = (if j < k then C + j else j) + 1 := by
  intro C k hk hkC
  have hC : 0 < C := by omega
  obtain ⟨h1, h2, h3⟩ := flushIter_spec C hC (C + k)
  have hne : C + k ≠ 0 := by omega
  constructor
  · rw [h1, if_neg hne]
    have e1 : C + k - 1 = C + (k - 1) := by omega
    rw [e1, Nat.add_mod_left, Nat.mod_eq_of_lt (by omega)]
    omega
  · intro j hj
    obtain ⟨ha, hb⟩ := h3 j
    have hcond : j < C ∧ j < C + k := ⟨hj, by omega⟩
    refine ⟨?_, ?_⟩
    · rw [ha, if_pos hcond]
      by_cases hjk : j < k
      · have e1 : C + k - 1 - j = C + (k - 1 - j) := by omega
        rw [e1, Nat.add_mod_left, Nat.mod_eq_of_lt (by omega), if_pos hjk]
        congr 1
        omega
      · have e1 : (C + k - 1 - j) % C = C + k - 1 - j := Nat.mod_eq_of_lt (by omega)
        rw [e1, if_neg hjk]
        congr 1
        omega
    · rw [hb, if_pos hcond]
      by_cases hjk : j < k
      · have e1 : C + k - 1 - j = C + (k - 1 - j) := by omega
        rw [e1, Nat.add_mod_left, Nat.mod_eq_of_lt (by omega), if_pos hjk]
        omega
      · have e1 : (C + k - 1 - j) % C = C + k - 1 - j := Nat.mod_eq_of_lt (by omega)
        rw [e1, if_neg hjk]
        omega

/-- C5 witness: capacity 3, four flushes, cursor lands on 1. -/
theorem ring_wrap_correct_witness : (flushIter 3 4).insert_idx = 1 :=
  (ring_wrap_correct 3 1 (by decide) (by decide)).1

/-! ### C7, amended part -/

/-- C7 amended: during the first non-wrapping fill (`0 < n ≤ C` flushes),
`buffer_len` TRAILS the writes by one: it equals `n - 1`, every admitted
trajectory `m < n` is stored at slot `m` with its length, every trajectory
but the most recent one sits strictly below `buffer_len`, and the most
recent write does not; on the first wrap (flush number `C + 1`)
`buffer_len` is reset to the pre-wrap cursor value. -/
theorem buffer_len_trails_writes : ∀ C n : Nat, 0 < n → n ≤ C →
    (flushIter C n).buffer_len = n - 1
    ∧ (∀ m, m < n → (flushIter C n).prev_state 0 m = (m : Int)
        ∧ (flushIter C n).trajectory_lens m = m + 1)
    ∧ (∀ m, m + 1 < n → m < (flushIter C n).buffer_len)
    ∧ ¬(n - 1 < (flushIter C n).buffer_len)
    ∧ (flushIter C (C + 1)).buffer_len = (flushIter C C).insert_idx := by
  intro C n hn hnC
  have hC : 0 < C := by omega
  obtain ⟨h1, h2, h3⟩ := flushIter_spec C hC n
  have hblen : (flushIter C n).buffer_len = n - 1 := by
    rw [h2, if_neg (by omega : n ≠ 0)]
    omega
  refine ⟨hblen, fun m hm => ?_, fun m hm => ?_, by omega, ?_⟩
  · obtain ⟨ha, hb⟩ := h3 m
    have hcond : m < C ∧ m < n := ⟨by omega, hm⟩
    have e1 : (n - 1 - m) % C = n - 1 - m := Nat.mod_eq_of_lt (by omega)
    refine ⟨?_, ?_⟩
    · rw [ha, if_pos hcond, e1]
      congr 1
      omega
    · rw [hb, if_pos hcond, e1]
      omega
  · rw [hblen]
    omega
  · obtain ⟨g1, g2, g3⟩ := flushIter_spec C hC (C + 1)
    obtain ⟨f1, f2, f3⟩ := flushIter_spec C hC C
    rw [g2, if_neg (by omega : C + 1 ≠ 0), f1, if_neg (by omega : C ≠ 0),
      Nat.mod_eq_of_lt (by omega : C - 1 < C)]
    simp only [Nat.add_sub_cancel]
    omega

/-- C7 witness: capacity 3, two flushes, `buffer_len` is 1. -/
theorem buffer_len_trails_writes_witness : (flushIter 3 2).buffer_len = 1 :=
  (buffer_len_trails_writes 3 2 (by decide) (by decide)).1

/-! ### C9 -/

/-- C9: when exactly one actor finishes and its admission draw fails the
gate, the whole ring-buffer state is unchanged by the `insert` call, while
the finished actor's running slot is nevertheless reset: all its field
columns and its task latch are zeroed and its cursor is set to 0. -/
theorem rejected_flush_keeps_ring (s : Storage) (a : StepArgs) (us : Nat → Rat) (i : Nat)
    (hiN : i < s.cfg.num_processes)
    (hdi : a.done i = true)
    (huniq : ∀ j, j < s.cfg.num_processes → a.done j = true → j = i)
    (hfail : acceptGate s.cfg.vae_buffer_add_thresh (us 0) = false) :
    (insert s a us).ring = s.ring ∧ actorCleared s.cfg (insert s a us).run i := by
  by_cases hAll : allDone s.cfg a = true
  · have hN1 : s.cfg.num_processes = 1 := by
      by_contra hne
      have hN2 : 2 ≤ s.cfg.num_processes := by omega
      have hall := List.all_eq_true.mp hAll
      have hd0 : a.done 0 = true := hall 0 (List.mem_range.mpr (by omega))
      have hd1 : a.done 1 = true := hall 1 (List.mem_range.mpr (by omega))
      have h0 := huniq 0 (by omega) hd0
      have h1 := huniq 1 (by omega) hd1
      omega
    have hI : uniformCursors s.cfg s.run = true := by
      simp [uniformCursors, hN1]
    simp only [insert]
    rw [if_pos ⟨hI, hAll⟩]
    constructor
    · show (if allDone s.cfg a = true ∧ 0 < s.cfg.max_buffer_size
          ∧ acceptGate s.cfg.vae_buffer_add_thresh (us 0) = true then
            batchedFlushRing s.cfg s.ring
              (if uniformCursors s.cfg s.run = true then fastInsertRun s.cfg s.run a
                else s.run)
          else s.ring) = s.ring
      rw [if_neg (fun h => by rw [hfail] at h; exact Bool.false_ne_true h.2.2)]
    · show actorCleared s.cfg (if allDone s.cfg a = true then
          zeroRunning s.cfg (if uniformCursors s.cfg s.run = true then
            fastInsertRun s.cfg s.run a else s.run)
        else (if uniformCursors s.cfg s.run = true then fastInsertRun s.cfg s.run a
          else s.run)) i
      rw [if_pos hAll]
      exact zeroRunning_cleared _ _ _
  · have hAllf : allDone s.cfg a = false := by
      cases h : allDone s.cfg a
      · rfl
      · exact absurd h hAll
    simp only [insert]
    rw [if_neg (fun hcc : uniformCursors s.cfg s.run = true ∧ allDone s.cfg a = true =>
      hAll hcc.2)]
    rw [hAllf]
    rw [if_neg (fun hcc : false = true ∧ 0 < s.cfg.max_buffer_size
        ∧ acceptGate s.cfg.vae_buffer_add_thresh (us 0) = true =>
      Bool.false_ne_true hcc.1)]
    rw [if_neg (fun hcc : false = true ∧ 0 < s.cfg.max_buffer_size =>
      Bool.false_ne_true hcc.1)]
    rw [if_neg Bool.false_ne_true]
    have hloop := insertLoop_single_done s.cfg a (uniformCursors s.cfg s.run) us i
      (List.range s.cfg.num_processes) 0 s.ring
      (if uniformCursors s.cfg s.run = true then fastInsertRun s.cfg s.run a else s.run)
      (List.nodup_range _)
      (fun j hj hd => huniq j (List.mem_range.mp hj) hd)
      hfail
    exact ⟨hloop.1, hloop.2 (List.mem_range.mpr hiN) hdi⟩

/-- C9 witness: two actors, threshold 1/2, draw 1 (rejected), actor 0
finishes alone. -/
theorem rejected_flush_keeps_ring_witness :
    (insert (initStorage cfg9) args9 (fun _ => 1)).ring = (initStorage cfg9).ring
    ∧ actorCleared (initStorage cfg9).cfg
        (insert (initStorage cfg9) args9 (fun _ => 1)).run 0 :=
  rejected_flush_keeps_ring (initStorage cfg9) args9 (fun _ => 1) 0
    (by decide) (by decide) (by decide) (by decide)

/-! ### C10 -/

/-- C10: `get_running_batch` returns the running intrinsic-reward series in
the reward slot exactly when `save_intrinsic_reward` is set, the running
environment rewards otherwise, and the remaining returned components
(previous states, next states, actions, cursors) depend only on the running
buffer, hence are identical for any two storages with equal running state. -/
theorem get_running_batch_reward_selection :
    ∀ s : Storage,
      (s.cfg.save_intrinsic_reward = true →
        (get_running_batch s).2.2.2.1 = s.run.intrinsic_rewards)
      ∧ (s.cfg.save_intrinsic_reward = false →
        (get_running_batch s).2.2.2.1 = s.run.rewards)
      ∧ (∀ s₂ : Storage, s₂.run = s.run →
          (get_running_batch s₂).1 = (get_running_batch s).1
          ∧ (get_running_batch s₂).2.1 = (get_running_batch s).2.1
          ∧ (get_running_batch s₂).2.2.1 = (get_running_batch s).2.2.1
          ∧ (get_running_batch s₂).2.2.2.2 = (get_running_batch s).2.2.2.2) := by
  intro s
  refine ⟨fun h => ?_, fun h => ?_, fun s₂ h => ?_⟩
  · simp [get_running_batch, h]
  · simp [get_running_batch, h]
  · simp [get_running_batch, h]

/-! ### C8 -/

/-- C8: on a non-empty buffer, `get_batch` draws exactly
`min(batchsize, buffer_len)` indices, every drawn index is strictly below
`buffer_len`, and without replacement the drawn indices are pairwise
distinct. -/
theorem get_batch_spec :
    ∀ (s : Storage) (n : Nat) (replace vp : Bool) (us : Nat → Nat),
      0 < s.ring.buffer_len →
      (get_batch s n replace vp us).indices.length = min n s.ring.buffer_len
      ∧ (∀ j ∈ (get_batch s n replace vp us).indices, j < s.ring.buffer_len)
      ∧ (replace = false → (get_batch s n replace vp us).indices.Nodup) := by
  intro s n replace vp us hpos
  have hidx : (get_batch s n replace vp us).indices
      = npChoice s.ring.buffer_len (min s.ring.buffer_len n) replace us := rfl
  cases replace with
  | true =>
    refine ⟨?_, ?_, fun h => by cases h⟩
    · simp [hidx, npChoice, npChoiceReplace, Nat.min_comm]
    · intro j hj
      rw [hidx] at hj
      simp only [npChoice, if_true, npChoiceReplace, List.mem_map] at hj
      rcases hj with ⟨m, _, rfl⟩
      exact Nat.mod_lt _ hpos
  | false =>
    refine ⟨?_, ?_, fun _ => ?_⟩
    · rw [hidx]
      simp only [npChoice]
      rw [if_neg Bool.false_ne_true]
      rw [npChoiceNoReplace_length _ _ _
        (by rw [List.length_range]; exact Nat.min_le_left _ _), Nat.min_comm]
    · intro j hj
      rw [hidx] at hj
      simp only [npChoice] at hj
      rw [if_neg Bool.false_ne_true] at hj
      exact List.mem_range.1 (npChoiceNoReplace_mem _ _ _ _ hj)
    · rw [hidx]
      simp only [npChoice]
      rw [if_neg Bool.false_ne_true]
      exact npChoiceNoReplace_nodup _ _ _ (List.nodup_range _)

/-- C8 witness: the theorem applied to a concrete storage holding two
trajectories, with batch size 5. -/
theorem get_batch_spec_witness :
    (get_batch ex8 5 false false (fun _ => 0)).indices.length = min 5 ex8.ring.buffer_len :=
  (get_batch_spec ex8 5 false false (fun _ => 0) (by decide)).1

/-! ### C2, counterexample part -/

/-- C2 counterexample: after driving the whole scenario, actor 0's cursor is
2 (its second episode is two steps in), `buffer_len` is 2 although three
trajectories were written, and `get_batch(3)` therefore returns only
`min(3, 2) = 2` trajectories — contradicting the claimed all-zero running
buffer, zero cursors and 3-trajectory sample. -/
theorem end_to_end_scenario_counterexample :
    c2_final.run.curr_timestep 0 = 2
    ∧ c2_final.run.prev_state 0 0 = 30
    ∧ c2_final.ring.buffer_len = 2
    ∧ (get_batch c2_final 3 false false (fun _ => 0)).indices.length = 2 := by
  decide

/-! ### C2, amended part -/

/-- C2 amended: after driving the scenario, the ring buffer does hold the 3
trajectories with lengths [2, 4, 4] at slots 0, 1, 2 and `insert_idx = 3`,
and actors 1 and 2 are fully reset — but `buffer_len` is 2 (it trails the
writes by one), actor 0's slot holds the first two steps of its SECOND
episode with cursor 2 (it is mid-episode, not zero), and `get_batch(3)`
without replacement therefore returns `min(3, 2) = 2` distinct trajectories
drawn from indices below 2, for every index stream. -/
theorem end_to_end_scenario_actual :
    c2_final.ring.trajectory_lens 0 = 2
    ∧ c2_final.ring.trajectory_lens 1 = 4
    ∧ c2_final.ring.trajectory_lens 2 = 4
    ∧ c2_final.ring.insert_idx = 3
    ∧ c2_final.ring.buffer_len = 2
    ∧ c2_final.run.curr_timestep 0 = 2
    ∧ c2_final.run.curr_timestep 1 = 0
    ∧ c2_final.run.curr_timestep 2 = 0
    ∧ ((List.range 4).all fun t =>
        (c2_final.run.prev_state t 1 == 0) && (c2_final.run.next_state t 1 == 0)
        && (c2_final.run.actions t 1 == 0) && (c2_final.run.rewards t 1 == 0)
        && (c2_final.run.prev_state t 2 == 0) && (c2_final.run.next_state t 2 == 0)
        && (c2_final.run.actions t 2 == 0) && (c2_final.run.rewards t 2 == 0)) = true
    ∧ (c2_final.run.prev_state 0 0 == 30) = true
    ∧ ∀ us : Nat → Nat,
        (get_batch c2_final 3 false false us).indices.length = 2
        ∧ (get_batch c2_final 3 false false us).indices.Nodup
        ∧ ((get_batch c2_final 3 false false us).indices.all fun j => decide (j < 2)) = true := by
  refine ⟨by decide, by decide, by decide, by decide, by decide, by decide, by decide,
    by decide, by decide, by decide, fun us => ?_⟩
  have hb : c2_final.ring.buffer_len = 2 := by decide
  have hidx : (get_batch c2_final 3 false false us).indices
      = npChoiceNoReplace (min c2_final.ring.buffer_len 3)
          (List.range c2_final.ring.buffer_len) us := by
    show npChoice _ _ false us = _
    simp only [npChoice]
    rw [if_neg Bool.false_ne_true]
  rw [hidx, hb]
  refine ⟨?_, ?_, ?_⟩
  · rw [npChoiceNoReplace_length _ _ _ (by simp)]
    decide
  · exact npChoiceNoReplace_nodup _ _ _ (List.nodup_range _)
  · rw [List.all_eq_true]
    intro x hx
    exact decide_eq_true (List.mem_range.mp (npChoiceNoReplace_mem _ _ _ _ hx))

/-- C10 witness: the theorem applied to a concrete storage with
`save_intrinsic_reward = true`. -/
theorem get_running_batch_reward_selection_witness :
    (get_running_batch exSaveTrue).2.2.2.1 = exSaveTrue.run.intrinsic_rewards :=
  (get_running_batch_reward_selection exSaveTrue).1 rfl

end RolloutStorageVAE
